import Mathlib

set_option maxRecDepth 8000

/-!
Verification of the SCD Type 2 change-detection and merge pipeline
(`scd_type2_process.py`).

Modelling conventions:
* A source row `(id, f1, …, f9)` is modelled as its identifier together
  with the list of the string representations of its non-identifier
  fields (the code only ever touches those fields through `str(x)`
  inside `calculate_row_hash`, so this is lossless for the core).
* A CDC row is the source fields plus `row_hash`, `row_start_date`,
  `row_end_date` and `is_current` (an SQLite integer, 0 or 1).
* The SQLite store is a list of CDC rows; the `executemany` UPDATE of
  `apply_changes` is a map over the table applying each parameter tuple
  in order, and the INSERT appends the new rows.
* `hashlib.sha256(...).hexdigest()` is implemented bit-for-bit below
  (FIPS 180-4) over the UTF-8 bytes of the joined field string.
-/

/-! ### SHA-256 (hashlib.sha256(...).hexdigest()) -/

/-- 2^32, the word modulus of SHA-256. -/
def MOD32 : Nat := 4294967296

/-- Right rotation of a 32-bit word. -/
def rotr32 (n x : Nat) : Nat :=
  ((x >>> n) ||| (x <<< (32 - n))) % MOD32

/-- The 64 SHA-256 round constants. -/
def shaK : List Nat :=
  [1116352408, 1899447441, 3049323471, 3921009573, 961987163,
   1508970993, 2453635748, 2870763221, 3624381080, 310598401,
   607225278, 1426881987, 1925078388, 2162078206, 2614888103,
   3248222580, 3835390401, 4022224774, 264347078, 604807628,
   770255983, 1249150122, 1555081692, 1996064986, 2554220882,
   2821834349, 2952996808, 3210313671, 3336571891, 3584528711,
   113926993, 338241895, 666307205, 773529912, 1294757372,
   1396182291, 1695183700, 1986661051, 2177026350, 2456956037,
   2730485921, 2820302411, 3259730800, 3345764771, 3516065817,
   3600352804, 4094571909, 275423344, 430227734, 506948616,
   659060556, 883997877, 958139571, 1322822218, 1537002063,
   1747873779, 1955562222, 2024104815, 2227730452, 2361852424,
   2428436474, 2756734187, 3204031479, 3329325298]

/-- Running state of the SHA-256 compression function: eight 32-bit words. -/
structure Hash8 where
  a : Nat
  b : Nat
  c : Nat
  d : Nat
  e : Nat
  f : Nat
  g : Nat
  hh : Nat
deriving DecidableEq, Repr

/-- Initial SHA-256 chaining value. -/
def shaInit : Hash8 :=
  ⟨1779033703, 3144134277, 1013904242, 2773480762,
   1359893119, 2600822924, 528734635, 1541459225⟩

/-- Message-schedule small sigma 0. -/
def ssig0 (x : Nat) : Nat :=
  Nat.xor (rotr32 7 x) (Nat.xor (rotr32 18 x) (x >>> 3)) % MOD32

/-- Message-schedule small sigma 1. -/
def ssig1 (x : Nat) : Nat :=
  Nat.xor (rotr32 17 x) (Nat.xor (rotr32 19 x) (x >>> 10)) % MOD32

/-- Extend the 16 chunk words to the 64-entry message schedule.  The
accumulator holds the schedule so far in reverse order. -/
def buildSched : Nat → List Nat → List Nat
  | 0, acc => acc.reverse
  | n + 1, acc =>
      buildSched n
        (((ssig1 (acc.getD 1 0) + acc.getD 6 0 + ssig0 (acc.getD 14 0)
            + acc.getD 15 0) % MOD32) :: acc)

/-- One round of the SHA-256 compression function. -/
def compressStep (st : Hash8) (wk : Nat × Nat) : Hash8 :=
  let s1 := Nat.xor (rotr32 6 st.e) (Nat.xor (rotr32 11 st.e) (rotr32 25 st.e))
  let ch := Nat.xor (st.e &&& st.f) ((Nat.xor st.e (MOD32 - 1)) &&& st.g)
  let t1 := (st.hh + s1 + ch + wk.2 + wk.1) % MOD32
  let s0 := Nat.xor (rotr32 2 st.a) (Nat.xor (rotr32 13 st.a) (rotr32 22 st.a))
  let mj := Nat.xor (st.a &&& st.b) (Nat.xor (st.a &&& st.c) (st.b &&& st.c))
  let t2 := (s0 + mj) % MOD32
  ⟨(t1 + t2) % MOD32, st.a, st.b, st.c, (st.d + t1) % MOD32, st.e, st.f, st.g⟩

/-- Big-endian 32-bit words from a list of bytes. -/
def bytesToWords : List Nat → List Nat
  | b0 :: b1 :: b2 :: b3 :: rest =>
      (((b0 * 256 + b1) * 256 + b2) * 256 + b3) :: bytesToWords rest
  | _ => []

/-- Process one 64-byte chunk. -/
def procChunk (st : Hash8) (chunk : List Nat) : Hash8 :=
  let ws := buildSched 48 (bytesToWords chunk).reverse
  let t := (ws.zip shaK).foldl compressStep st
  ⟨(st.a + t.a) % MOD32, (st.b + t.b) % MOD32, (st.c + t.c) % MOD32,
   (st.d + t.d) % MOD32, (st.e + t.e) % MOD32, (st.f + t.f) % MOD32,
   (st.g + t.g) % MOD32, (st.hh + t.hh) % MOD32⟩

/-- Big-endian 8-byte encoding of the bit length. -/
def len64be (ml : Nat) : List Nat :=
  [(ml >>> 56) % 256, (ml >>> 48) % 256, (ml >>> 40) % 256, (ml >>> 32) % 256,
   (ml >>> 24) % 256, (ml >>> 16) % 256, (ml >>> 8) % 256, ml % 256]

/-- SHA-256 padding: a 0x80 byte, zeros, then the 64-bit message length. -/
def shaPad (msg : List Nat) : List Nat :=
  msg ++ 0x80 :: List.replicate ((64 - (msg.length + 9) % 64) % 64) 0
      ++ len64be (8 * msg.length)

/-- Split a byte list into 64-byte chunks (fuel-driven). -/
def chunksGo : Nat → List Nat → List (List Nat)
  | 0, _ => []
  | _, [] => []
  | fuel + 1, l => l.take 64 :: chunksGo fuel (l.drop 64)

/-- All 64-byte chunks of a padded message. -/
def chunks64 (l : List Nat) : List (List Nat) := chunksGo l.length l

/-- SHA-256 over a byte list, as the final eight-word state. -/
def sha256Words (msg : List Nat) : Hash8 :=
  (chunks64 (shaPad msg)).foldl procChunk shaInit

/-- Lower-case hexadecimal digit, as `hexdigest` produces. -/
def hexDigit (n : Nat) : Char :=
  if n < 10 then Char.ofNat (48 + n) else Char.ofNat (87 + n)

/-- Eight hex characters of one 32-bit word, most significant first. -/
def wordHex (w : Nat) : List Char :=
  [hexDigit ((w >>> 28) &&& 15), hexDigit ((w >>> 24) &&& 15),
   hexDigit ((w >>> 20) &&& 15), hexDigit ((w >>> 16) &&& 15),
   hexDigit ((w >>> 12) &&& 15), hexDigit ((w >>> 8) &&& 15),
   hexDigit ((w >>> 4) &&& 15), hexDigit (w &&& 15)]

/-- Hex rendering of a final state, 64 characters. -/
def hash8Hex (st : Hash8) : String :=
  ⟨wordHex st.a ++ wordHex st.b ++ wordHex st.c ++ wordHex st.d
    ++ wordHex st.e ++ wordHex st.f ++ wordHex st.g ++ wordHex st.hh⟩

/-- UTF-8 bytes of one character (`str.encode('utf-8')`). -/
def utf8Bytes (c : Char) : List Nat :=
  let n := c.toNat
  if n < 128 then [n]
  else if n < 2048 then [192 + n / 64, 128 + n % 64]
  else if n < 65536 then
    [224 + n / 4096, 128 + (n / 64) % 64, 128 + n % 64]
  else
    [240 + n / 262144, 128 + (n / 4096) % 64, 128 + (n / 64) % 64, 128 + n % 64]

/-- UTF-8 byte list of a string. -/
def strBytes (s : String) : List Nat :=
  (s.data.map utf8Bytes).flatten

/-- `hashlib.sha256(s.encode('utf-8')).hexdigest()`. -/
def sha256Hex (s : String) : String :=
  hash8Hex (sha256Words (strBytes s))

/-! ### Data model (`scd_type2_process.py`)

Column layout of the CDC table `sales_records_cdc` (class `CDCColumnIndex`):
index 0 is `id`, indices 1–9 the attribute columns, 10 `row_hash`,
11 `row_start_date`, 12 `row_end_date`, 13 `is_current`. -/

/-- A row of the source table `sales_records_current`: the identifier at
index 0 followed by the attribute fields, kept as the string
representations `str(x)` through which the core reads them. -/
structure SrcRow where
  id : Nat
  attrs : List String
deriving DecidableEq, Repr

/-- A row of the CDC target table `sales_records_cdc`. -/
structure CDCRow where
  id : Nat
  attrs : List String
  row_hash : String
  row_start_date : String
  row_end_date : String
  is_current : Nat
deriving DecidableEq, Repr

/-- One parameter triple of the expiry UPDATE:
`(current_timestamp, src_id, tgt_start_date)`. -/
structure Expire where
  ts : String
  eid : Nat
  vstart : String
deriving DecidableEq, Repr

/-- `MAX_DATE = '9999-12-31'`, end date for active records. -/
def MAX_DATE : String := "9999-12-31"

/-- `calculate_row_hash`: SHA-256 hex digest of the pipe-joined string
representations of all columns except the ID at index 0. -/
def calculate_row_hash (row : SrcRow) : String :=
  sha256Hex (String.intercalate "|" row.attrs)

/-- The record built in both insert paths of `process_records`:
`src_row + (src_hash, current_timestamp, MAX_DATE, 1)`. -/
def newVersion (r : SrcRow) (srcHash ts : String) : CDCRow :=
  ⟨r.id, r.attrs, srcHash, ts, MAX_DATE, 1⟩

/-- `process_records(source_data, target_lookup, current_timestamp)`:
walks the source rows in order and produces
`(records_to_insert, records_to_expire)`. -/
def process_records :
    List SrcRow → List (Nat × CDCRow) → String → List CDCRow × List Expire
  | [], _, _ => ([], [])
  | r :: rest, tgt, ts =>
    let srcHash := calculate_row_hash r
    let res := process_records rest tgt ts
    match tgt.lookup r.id with
    | none =>
        (newVersion r srcHash ts :: res.1, res.2)
    | some tgtRow =>
        if srcHash ≠ tgtRow.row_hash then
          (newVersion r srcHash ts :: res.1,
            ⟨ts, r.id, tgtRow.row_start_date⟩ :: res.2)
        else
          res

/-- Python `dict` assignment `m[k] = v`: replace the value at an existing
key in place, otherwise append the binding. -/
def dictUpsert (m : List (Nat × CDCRow)) (k : Nat) (v : CDCRow) :
    List (Nat × CDCRow) :=
  match m with
  | [] => [(k, v)]
  | (k', v') :: rest =>
      if k' = k then (k, v) :: rest else (k', v') :: dictUpsert rest k v

/-- The rows of the store with `is_current = 1` (the `WHERE` clause of
`fetch_target_data`). -/
def activeRows (store : List CDCRow) : List CDCRow :=
  store.filter (fun row => row.is_current == 1)

/-- `fetch_target_data`: the dict comprehension
`{row[ID]: row for row in active rows}`. -/
def fetch_target_data (store : List CDCRow) : List (Nat × CDCRow) :=
  (activeRows store).foldl (fun m row => dictUpsert m row.id row) []

/-- The effect of one expiry parameter triple on one table row: the
UPDATE sets `row_end_date = ts, is_current = 0` on rows matching
`id = ? AND row_start_date = ?` and leaves every other row alone. -/
def applyTriple (t : Expire) (row : CDCRow) : CDCRow :=
  if row.id = t.eid ∧ row.row_start_date = t.vstart then
    ⟨row.id, row.attrs, row.row_hash, row.row_start_date, t.ts, 0⟩
  else row

/-- One execution of the expiry UPDATE over the whole table. -/
def expireStep (store : List CDCRow) (t : Expire) : List CDCRow :=
  store.map (applyTriple t)

/-- `executemany` of the expiry UPDATE: the triples in order. -/
def apply_expires (store : List CDCRow) (exps : List Expire) : List CDCRow :=
  exps.foldl expireStep store

/-- The committed effect of a successful `apply_changes`: run the expiry
UPDATEs, then INSERT the new rows. -/
def apply_changes (store : List CDCRow) (exps : List Expire)
    (ins : List CDCRow) : List CDCRow :=
  apply_expires store exps ++ ins

/-- One complete run: fetch, classify, apply (the success path of
`scd_type2_process`). -/
def runOnce (store : List CDCRow) (src : List SrcRow) (ts : String) :
    List CDCRow :=
  let res := process_records src (fetch_target_data store) ts
  apply_changes store res.2 res.1

/-- A database fault injected into `apply_changes`: a `sqlite3.Error`
raised by the expiry UPDATE or by the INSERT. -/
inductive DbFault where
  | onExpire : DbFault
  | onInsert : DbFault
deriving DecidableEq, Repr

/-- `apply_changes` against the transactional store: work happens on the
uncommitted connection state; `conn.commit()` publishes it, and on a
`sqlite3.Error` the `except` branch calls `conn.rollback()`, which
restores the committed state, and returns `False`. -/
def apply_changes_db (fault : Option DbFault) (store : List CDCRow)
    (exps : List Expire) (ins : List CDCRow) : List CDCRow × Bool :=
  match fault with
  | some DbFault.onExpire =>
      -- the UPDATE raises before any work is committed; rollback
      (store, false)
  | some DbFault.onInsert =>
      -- the close step ran on the connection, the INSERT raises;
      -- rollback discards the uncommitted close work
      let working := apply_expires store exps
      let _ := working
      (store, false)
  | none =>
      let working := apply_expires store exps
      let working2 := working ++ ins
      (working2, true)

/-- What a caller of `scd_type2_process` observes. -/
structure RunResult where
  db : List CDCRow
  raised : Bool
deriving DecidableEq, Repr

/-- `scd_type2_process()`: if the database file is missing the function
logs and returns `None`; otherwise it fetches, classifies, applies, logs
the success flag, and returns `None`.  Every `sqlite3.Error` and every
other `Exception` is caught inside the function, so no exception ever
reaches the caller (`raised = false` records this observable). -/
def scd_type2_process (dbExists : Bool) (fault : Option DbFault)
    (store : List CDCRow) (src : List SrcRow) (ts : String) : RunResult :=
  if dbExists = false then
    ⟨store, false⟩
  else
    let tgt := fetch_target_data store
    let res := process_records src tgt ts
    let applied := apply_changes_db fault store res.2 res.1
    ⟨applied.1, false⟩


/-! ### Basic computation lemmas -/

theorem process_records_nil (tgt : List (Nat × CDCRow)) (ts : String) :
    process_records [] tgt ts = ([], []) := rfl

theorem process_records_cons_new (r : SrcRow) (rest : List SrcRow)
    (tgt : List (Nat × CDCRow)) (ts : String)
    (h : tgt.lookup r.id = none) :
    process_records (r :: rest) tgt ts =
      (newVersion r (calculate_row_hash r) ts ::
        (process_records rest tgt ts).1,
       (process_records rest tgt ts).2) := by
  simp [process_records, h]

theorem process_records_cons_changed (r : SrcRow) (rest : List SrcRow)
    (tgt : List (Nat × CDCRow)) (ts : String) (tgtRow : CDCRow)
    (h : tgt.lookup r.id = some tgtRow)
    (hne : calculate_row_hash r ≠ tgtRow.row_hash) :
    process_records (r :: rest) tgt ts =
      (newVersion r (calculate_row_hash r) ts ::
        (process_records rest tgt ts).1,
       (⟨ts, r.id, tgtRow.row_start_date⟩ : Expire) ::
        (process_records rest tgt ts).2) := by
  simp [process_records, h, hne]

theorem process_records_cons_same (r : SrcRow) (rest : List SrcRow)
    (tgt : List (Nat × CDCRow)) (ts : String) (tgtRow : CDCRow)
    (h : tgt.lookup r.id = some tgtRow)
    (heq : calculate_row_hash r = tgtRow.row_hash) :
    process_records (r :: rest) tgt ts = process_records rest tgt ts := by
  simp [process_records, h, heq]

/-- Restricting both output lists to one identifier is the same as
running the classifier on the source rows with that identifier: each
source row only ever contributes output carrying its own identifier. -/
theorem process_records_filter_fst (src : List SrcRow)
    (tgt : List (Nat × CDCRow)) (ts : String) (i : Nat) :
    (process_records src tgt ts).1.filter (fun w => w.id == i)
      = (process_records (src.filter (fun r => r.id == i)) tgt ts).1 := by
  induction src with
  | nil => simp [process_records]
  | cons r rest ih =>
    by_cases hi : r.id = i
    · subst hi
      rcases hl : tgt.lookup r.id with _ | tgtRow
      · simp [process_records, hl, newVersion, ih]
      · by_cases hne : calculate_row_hash r = tgtRow.row_hash
        · simp [process_records, hl, hne, ih]
        · simp [process_records, hl, hne, newVersion, ih]
    · rcases hl : tgt.lookup r.id with _ | tgtRow
      · simp [process_records, hl, hi, newVersion, ih]
      · by_cases hne : calculate_row_hash r = tgtRow.row_hash
        · simp [process_records, hl, hne, hi, ih]
        · simp [process_records, hl, hne, hi, newVersion, ih]

/-- Companion of `process_records_filter_fst` for the close-list. -/
theorem process_records_filter_snd (src : List SrcRow)
    (tgt : List (Nat × CDCRow)) (ts : String) (i : Nat) :
    (process_records src tgt ts).2.filter (fun t => t.eid == i)
      = (process_records (src.filter (fun r => r.id == i)) tgt ts).2 := by
  induction src with
  | nil => simp [process_records]
  | cons r rest ih =>
    by_cases hi : r.id = i
    · subst hi
      rcases hl : tgt.lookup r.id with _ | tgtRow
      · simp [process_records, hl, ih]
      · by_cases hne : calculate_row_hash r = tgtRow.row_hash
        · simp [process_records, hl, hne, ih]
        · simp [process_records, hl, hne, ih]
    · rcases hl : tgt.lookup r.id with _ | tgtRow
      · simp [process_records, hl, hi, ih]
      · by_cases hne : calculate_row_hash r = tgtRow.row_hash
        · simp [process_records, hl, hne, hi, ih]
        · simp [process_records, hl, hne, hi, ih]

/-- In a source snapshot with distinct identifiers, filtering by the
identifier of a member recovers exactly that member. -/
theorem filter_id_singleton (src : List SrcRow) (r : SrcRow)
    (hnd : (src.map SrcRow.id).Nodup) (hr : r ∈ src) :
    src.filter (fun x => x.id == r.id) = [r] := by
  induction src with
  | nil => cases hr
  | cons x rest ih =>
    rw [List.map_cons, List.nodup_cons] at hnd
    rcases List.mem_cons.mp hr with h | h
    · subst h
      rw [List.filter_cons_of_pos (by simp)]
      have hnil : rest.filter (fun y => y.id == r.id) = [] := by
        rw [List.filter_eq_nil_iff]
        intro y hy hyx
        have hyx2 : y.id = r.id := by simpa using hyx
        apply hnd.1
        rw [← hyx2]
        exact List.mem_map_of_mem SrcRow.id hy
      rw [hnil]
    · have hxi : x.id ≠ r.id := by
        intro he
        apply hnd.1
        rw [he]
        exact List.mem_map_of_mem SrcRow.id h
      rw [List.filter_cons_of_neg (by simp [hxi])]
      exact ih hnd.2 h

/-! ### Shape of the insert-list -/

/-- Every record in the insert-list is the `newVersion` of a source row. -/
theorem process_records_insert_shape (src : List SrcRow)
    (tgt : List (Nat × CDCRow)) (ts : String) (w : CDCRow)
    (hw : w ∈ (process_records src tgt ts).1) :
    ∃ r, r ∈ src ∧ w = newVersion r (calculate_row_hash r) ts := by
  induction src with
  | nil => simp [process_records] at hw
  | cons r rest ih =>
    rcases hl : tgt.lookup r.id with _ | tgtRow
    · rw [process_records_cons_new r rest tgt ts hl] at hw
      simp only [List.mem_cons] at hw
      rcases hw with h | h
      · exact ⟨r, List.mem_cons_self r rest, h⟩
      · obtain ⟨r', hr', he⟩ := ih h
        exact ⟨r', List.mem_cons_of_mem _ hr', he⟩
    · by_cases hne : calculate_row_hash r = tgtRow.row_hash
      · rw [process_records_cons_same r rest tgt ts tgtRow hl hne] at hw
        obtain ⟨r', hr', he⟩ := ih hw
        exact ⟨r', List.mem_cons_of_mem _ hr', he⟩
      · rw [process_records_cons_changed r rest tgt ts tgtRow hl hne] at hw
        simp only [List.mem_cons] at hw
        rcases hw with h | h
        · exact ⟨r, List.mem_cons_self r rest, h⟩
        · obtain ⟨r', hr', he⟩ := ih h
          exact ⟨r', List.mem_cons_of_mem _ hr', he⟩

/-- Every record in the insert-list carries `is_current = 1`. -/
theorem process_records_insert_active (src : List SrcRow)
    (tgt : List (Nat × CDCRow)) (ts : String) (w : CDCRow)
    (hw : w ∈ (process_records src tgt ts).1) : w.is_current = 1 := by
  obtain ⟨r, _, rfl⟩ := process_records_insert_shape src tgt ts w hw
  rfl

/-- The identifiers of the insert-list, in order, form a sublist of the
source identifiers (each source row contributes at most one insert). -/
theorem ins_ids_sublist (src : List SrcRow) (tgt : List (Nat × CDCRow))
    (ts : String) :
    ((process_records src tgt ts).1.map CDCRow.id).Sublist
      (src.map SrcRow.id) := by
  induction src with
  | nil => simp [process_records]
  | cons r rest ih =>
    rcases hl : tgt.lookup r.id with _ | tgtRow
    · rw [process_records_cons_new r rest tgt ts hl]
      simpa [newVersion] using List.Sublist.cons₂ r.id ih
    · by_cases hne : calculate_row_hash r = tgtRow.row_hash
      · rw [process_records_cons_same r rest tgt ts tgtRow hl hne]
        exact List.Sublist.cons r.id ih
      · rw [process_records_cons_changed r rest tgt ts tgtRow hl hne]
        simpa [newVersion] using List.Sublist.cons₂ r.id ih

/-! ### The expiry UPDATE, row by row -/

/-- The cumulative effect of the whole close-list on a single row. -/
def gRow (exps : List Expire) (row : CDCRow) : CDCRow :=
  exps.foldl (fun row t => applyTriple t row) row

theorem gRow_cons (t : Expire) (tl : List Expire) (row : CDCRow) :
    gRow (t :: tl) row = gRow tl (applyTriple t row) := rfl

/-- `executemany` over the UPDATE triples is a pointwise map of `gRow`
over the table. -/
theorem apply_expires_eq_map (store : List CDCRow) (exps : List Expire) :
    apply_expires store exps = store.map (gRow exps) := by
  induction exps generalizing store with
  | nil =>
    rw [show gRow [] = id from funext (fun row => rfl), List.map_id]
    simp [apply_expires]
  | cons t tl ih =>
    have h1 : apply_expires store (t :: tl)
        = apply_expires (expireStep store t) tl := by
      simp [apply_expires, List.foldl_cons]
    rw [h1, ih, expireStep, List.map_map]
    rfl

/-- The UPDATE never touches identifier, attributes, hash or start date. -/
theorem applyTriple_fields (t : Expire) (row : CDCRow) :
    (applyTriple t row).id = row.id ∧ (applyTriple t row).attrs = row.attrs ∧
    (applyTriple t row).row_hash = row.row_hash ∧
    (applyTriple t row).row_start_date = row.row_start_date := by
  unfold applyTriple
  split <;> simp

theorem gRow_fields (exps : List Expire) (row : CDCRow) :
    (gRow exps row).id = row.id ∧ (gRow exps row).attrs = row.attrs ∧
    (gRow exps row).row_hash = row.row_hash ∧
    (gRow exps row).row_start_date = row.row_start_date := by
  induction exps generalizing row with
  | nil => simp [gRow]
  | cons t tl ih =>
    have h1 := applyTriple_fields t row
    have h2 := ih (applyTriple t row)
    rw [gRow_cons]
    exact ⟨h2.1.trans h1.1, h2.2.1.trans h1.2.1,
      h2.2.2.1.trans h1.2.2.1, h2.2.2.2.trans h1.2.2.2⟩

theorem applyTriple_is_current (t : Expire) (row : CDCRow) :
    (applyTriple t row).is_current = 0 ∨ applyTriple t row = row := by
  unfold applyTriple
  split <;> simp

theorem gRow_is_current (exps : List Expire) (row : CDCRow) :
    (gRow exps row).is_current = 0 ∨
      (gRow exps row).is_current = row.is_current := by
  induction exps generalizing row with
  | nil => right; rfl
  | cons t tl ih =>
    rw [gRow_cons]
    rcases ih (applyTriple t row) with h | h
    · left; exact h
    · rcases applyTriple_is_current t row with h2 | h2
      · left; rw [h, h2]
      · right; rw [h, h2]

/-- A row matched by no triple of the close-list passes through the
UPDATE step completely unchanged. -/
theorem gRow_of_unmatched (exps : List Expire) (row : CDCRow)
    (h : ∀ t ∈ exps, ¬(row.id = t.eid ∧ row.row_start_date = t.vstart)) :
    gRow exps row = row := by
  induction exps with
  | nil => rfl
  | cons t tl ih =>
    have h1 : applyTriple t row = row := by
      unfold applyTriple
      rw [if_neg (h t (List.mem_cons_self t tl))]
    rw [gRow_cons, h1]
    exact ih (fun u hu => h u (List.mem_cons_of_mem t hu))

/-- A row matched by some triple of the close-list ends inactive. -/
theorem gRow_matched_zero (exps : List Expire) (row : CDCRow) (t : Expire)
    (ht : t ∈ exps) (hm1 : row.id = t.eid)
    (hm2 : row.row_start_date = t.vstart) :
    (gRow exps row).is_current = 0 := by
  obtain ⟨l1, l2, rfl⟩ := List.append_of_mem ht
  have hsplit : gRow (l1 ++ t :: l2) row
      = gRow l2 (applyTriple t (gRow l1 row)) := by
    simp [gRow, List.foldl_append, List.foldl_cons]
  rw [hsplit]
  have hf := gRow_fields l1 row
  have hc : (gRow l1 row).id = t.eid ∧
      (gRow l1 row).row_start_date = t.vstart :=
    ⟨hf.1.trans hm1, hf.2.2.2.trans hm2⟩
  have hq : (applyTriple t (gRow l1 row)).is_current = 0 := by
    unfold applyTriple
    rw [if_pos hc]
  rcases gRow_is_current l2 (applyTriple t (gRow l1 row)) with h | h
  · exact h
  · rw [h, hq]

/-! ### Active rows after a run -/

/-- Decidable test: no triple of the close-list matches this row. -/
def unmatchedB (exps : List Expire) (row : CDCRow) : Bool :=
  exps.all (fun t => !(row.id == t.eid && row.row_start_date == t.vstart))

theorem unmatchedB_iff (exps : List Expire) (row : CDCRow) :
    unmatchedB exps row = true ↔
      ∀ t ∈ exps, ¬(row.id = t.eid ∧ row.row_start_date = t.vstart) := by
  simp only [unmatchedB, List.all_eq_true]
  constructor
  · intro h t ht hc
    have h2 := h t ht
    simp [hc.1, hc.2] at h2
  · intro h t ht
    have h2 := h t ht
    simp only [Bool.not_eq_true', Bool.and_eq_false_iff]
    by_cases h1 : row.id = t.eid
    · right
      simp only [beq_eq_false_iff_ne, ne_eq]
      intro h3
      exact h2 ⟨h1, h3⟩
    · left
      simp [h1]

/-- Filtering the updated table for active rows keeps exactly the rows
that were active before and matched by no close triple. -/
theorem activeRows_map_g (store : List CDCRow) (exps : List Expire) :
    activeRows (store.map (gRow exps))
      = (activeRows store).filter (unmatchedB exps) := by
  induction store with
  | nil => simp [activeRows]
  | cons row rest ih =>
    have ih2 : List.filter (fun row => row.is_current == 1)
          (List.map (gRow exps) rest)
        = List.filter (fun a => unmatchedB exps a && a.is_current == 1)
          rest := by
      simpa [activeRows] using ih
    simp only [List.map_cons]
    by_cases hm : ∀ t ∈ exps, ¬(row.id = t.eid ∧ row.row_start_date = t.vstart)
    · have hg : gRow exps row = row := gRow_of_unmatched exps row hm
      have hb : unmatchedB exps row = true := (unmatchedB_iff exps row).mpr hm
      by_cases hact : row.is_current = 1
      · simp [activeRows, List.filter_cons, hg, hact, hb, ih2]
      · simp [activeRows, List.filter_cons, hg, hact, ih2]
    · push_neg at hm
      obtain ⟨t, ht, hm1, hm2⟩ := hm
      have h0 : (gRow exps row).is_current = 0 :=
        gRow_matched_zero exps row t ht hm1 hm2
      have hb : ¬ unmatchedB exps row = true := fun hu =>
        (unmatchedB_iff exps row).mp hu t ht ⟨hm1, hm2⟩
      by_cases hact : row.is_current = 1
      · simp [activeRows, List.filter_cons, h0, hact, hb, ih2]
      · simp [activeRows, List.filter_cons, h0, hact, ih2]

/-- The active rows after one complete run: the previously active rows
that no close triple matched, followed by the freshly inserted rows. -/
theorem actives_runOnce (store : List CDCRow) (src : List SrcRow)
    (ts : String) :
    activeRows (runOnce store src ts)
      = (activeRows store).filter
          (unmatchedB (process_records src (fetch_target_data store) ts).2)
        ++ (process_records src (fetch_target_data store) ts).1 := by
  have h0 : runOnce store src ts
      = apply_expires store
          (process_records src (fetch_target_data store) ts).2
        ++ (process_records src (fetch_target_data store) ts).1 := rfl
  rw [h0, apply_expires_eq_map]
  have h1 : activeRows (List.map
        (gRow (process_records src (fetch_target_data store) ts).2) store
      ++ (process_records src (fetch_target_data store) ts).1)
      = activeRows (List.map
          (gRow (process_records src (fetch_target_data store) ts).2) store)
        ++ activeRows (process_records src (fetch_target_data store) ts).1 := by
    simp [activeRows, List.filter_append]
  rw [h1, activeRows_map_g]
  have h2 : activeRows (process_records src (fetch_target_data store) ts).1
      = (process_records src (fetch_target_data store) ts).1 := by
    rw [activeRows, List.filter_eq_self]
    intro w hw
    simp [process_records_insert_active src (fetch_target_data store) ts w hw]
  rw [h2]

/-! ### The Python dict built by `fetch_target_data` -/

theorem dictUpsert_lookup_self (m : List (Nat × CDCRow)) (k : Nat)
    (v : CDCRow) : (dictUpsert m k v).lookup k = some v := by
  induction m with
  | nil => simp [dictUpsert]
  | cons p rest ih =>
    rcases p with ⟨k', v'⟩
    by_cases hk : k' = k
    · simp [dictUpsert, hk]
    · have hb : (k == k') = false := by
        simp [Ne.symm hk]
      simp [dictUpsert, hk, List.lookup_cons, hb, ih]

theorem dictUpsert_lookup_ne (m : List (Nat × CDCRow)) (k : Nat)
    (v : CDCRow) (i : Nat) (h : i ≠ k) :
    (dictUpsert m k v).lookup i = m.lookup i := by
  have hb : (i == k) = false := by
    simp [h]
  induction m with
  | nil => simp [dictUpsert, List.lookup_cons, hb]
  | cons p rest ih =>
    rcases p with ⟨k', v'⟩
    by_cases hk : k' = k
    · subst hk
      simp [dictUpsert, List.lookup_cons, hb]
    · by_cases hik : i = k'
      · subst hik
        simp [dictUpsert, hk, List.lookup_cons]
      · have hb2 : (i == k') = false := by
          simp [hik]
        simp [dictUpsert, hk, List.lookup_cons, hb2, ih]

/-- Any value found in the dict built over a row list is one of those
rows, keyed by its own identifier. -/
theorem fold_upsert_lookup_mem (l : List CDCRow) :
    ∀ (m0 : List (Nat × CDCRow)) (i : Nat) (v : CDCRow),
      (l.foldl (fun m row => dictUpsert m row.id row) m0).lookup i = some v →
      m0.lookup i = some v ∨ (v ∈ l ∧ v.id = i) := by
  induction l with
  | nil =>
    intro m0 i v h
    exact Or.inl h
  | cons row rest ih =>
    intro m0 i v h
    rw [List.foldl_cons] at h
    rcases ih (dictUpsert m0 row.id row) i v h with h2 | h2
    · by_cases hik : i = row.id
      · subst hik
        rw [dictUpsert_lookup_self] at h2
        have h3 : row = v := by injection h2
        right
        rw [← h3]
        exact ⟨List.mem_cons_self row rest, rfl⟩
      · rw [dictUpsert_lookup_ne m0 row.id row i hik] at h2
        exact Or.inl h2
    · exact Or.inr ⟨List.mem_cons_of_mem row h2.1, h2.2⟩

/-- Inserting rows into the dict never loses a key. -/
theorem fold_upsert_lookup_isSome (l : List CDCRow) :
    ∀ (m0 : List (Nat × CDCRow)) (i : Nat),
      ((∃ row ∈ l, row.id = i) ∨ (m0.lookup i).isSome = true) →
      ((l.foldl (fun m row => dictUpsert m row.id row) m0).lookup i).isSome
        = true := by
  induction l with
  | nil =>
    intro m0 i h
    rcases h with ⟨row, hmem, _⟩ | h
    · cases hmem
    · exact h
  | cons row rest ih =>
    intro m0 i h
    rw [List.foldl_cons]
    apply ih
    by_cases hik : i = row.id
    · subst hik
      right
      rw [dictUpsert_lookup_self]
      rfl
    · rcases h with ⟨row', hmem, hid⟩ | h
      · rcases List.mem_cons.mp hmem with h2 | h2
        · subst h2
          exact (hik hid.symm).elim
        · exact Or.inl ⟨row', h2, hid⟩
      · right
        rw [dictUpsert_lookup_ne m0 row.id row i hik]
        exact h

/-- A successful lookup in the active-history map returns an active row
of the store carrying the looked-up identifier. -/
theorem fetch_target_lookup_mem (store : List CDCRow) (i : Nat) (v : CDCRow)
    (h : (fetch_target_data store).lookup i = some v) :
    v ∈ activeRows store ∧ v.id = i := by
  rcases fold_upsert_lookup_mem (activeRows store) [] i v h with h2 | h2
  · simp at h2
  · exact h2

/-- With at most one active row per identifier, the active-history map
sends the identifier of an active row to that very row. -/
theorem fetch_target_lookup_of_mem (store : List CDCRow) (row : CDCRow)
    (hnd : ((activeRows store).map CDCRow.id).Nodup)
    (hm : row ∈ activeRows store) :
    (fetch_target_data store).lookup row.id = some row := by
  have hs : ((fetch_target_data store).lookup row.id).isSome = true :=
    fold_upsert_lookup_isSome (activeRows store) [] row.id
      (Or.inl ⟨row, hm, rfl⟩)
  rcases ho : (fetch_target_data store).lookup row.id with _ | v
  · rw [ho] at hs
    cases hs
  · obtain ⟨hv1, hv2⟩ := fetch_target_lookup_mem store row.id v ho
    have : v = row :=
      List.inj_on_of_nodup_map hnd hv1 hm (by rw [hv2])
    rw [this]

/-- The active-history map has no entry for an identifier exactly when
the store has no active row with that identifier. -/
theorem fetch_target_lookup_none_iff (store : List CDCRow) (i : Nat) :
    (fetch_target_data store).lookup i = none ↔
      ∀ row ∈ activeRows store, row.id ≠ i := by
  constructor
  · intro h row hm hid
    have hs : ((fetch_target_data store).lookup i).isSome = true :=
      fold_upsert_lookup_isSome (activeRows store) [] i
        (Or.inl ⟨row, hm, hid⟩)
    rw [h] at hs
    cases hs
  · intro h
    rcases ho : (fetch_target_data store).lookup i with _ | v
    · rfl
    · obtain ⟨hv1, hv2⟩ := fetch_target_lookup_mem store i v ho
      exact absurd hv2 (h v hv1)

/-- If an insert was produced for an identifier that does have an entry
in the active-history map, the matching close triple was produced too. -/
theorem changed_triple_mem (src : List SrcRow) (tgt : List (Nat × CDCRow))
    (ts : String) (i : Nat) (tr : CDCRow) (w : CDCRow)
    (hl : tgt.lookup i = some tr)
    (hw : w ∈ (process_records src tgt ts).1) (hwid : w.id = i) :
    (⟨ts, i, tr.row_start_date⟩ : Expire) ∈ (process_records src tgt ts).2 := by
  induction src with
  | nil => simp [process_records] at hw
  | cons r rest ih =>
    rcases hl2 : tgt.lookup r.id with _ | tgtRow
    · rw [process_records_cons_new r rest tgt ts hl2] at hw ⊢
      simp only [List.mem_cons] at hw
      rcases hw with h | h
      · exfalso
        have hri : r.id = i := by
          rw [h] at hwid
          simpa [newVersion] using hwid
        rw [hri, hl] at hl2
        cases hl2
      · exact ih h
    · by_cases hne : calculate_row_hash r = tgtRow.row_hash
      · rw [process_records_cons_same r rest tgt ts tgtRow hl2 hne] at hw ⊢
        exact ih hw
      · rw [process_records_cons_changed r rest tgt ts tgtRow hl2 hne] at hw ⊢
        simp only [List.mem_cons] at hw ⊢
        rcases hw with h | h
        · left
          have hri : r.id = i := by
            rw [h] at hwid
            simpa [newVersion] using hwid
          rw [hri, hl] at hl2
          injection hl2 with hh
          rw [← hri, hh]
        · right
          exact ih h

/-- After one run on a well-formed store and snapshot, the active rows
still have pairwise distinct identifiers. -/
theorem nodup_actives_runOnce (store : List CDCRow) (src : List SrcRow)
    (ts : String)
    (hact : ((activeRows store).map CDCRow.id).Nodup)
    (hsrc : (src.map SrcRow.id).Nodup) :
    ((activeRows (runOnce store src ts)).map CDCRow.id).Nodup := by
  rw [actives_runOnce, List.map_append]
  apply List.Nodup.append
  · exact hact.sublist
      (List.Sublist.map CDCRow.id (List.filter_sublist (activeRows store)))
  · exact hsrc.sublist (ins_ids_sublist src (fetch_target_data store) ts)
  · intro i hi1 hi2
    obtain ⟨row, hrowmem, hrowid⟩ := List.mem_map.mp hi1
    obtain ⟨w, hwmem, hwid⟩ := List.mem_map.mp hi2
    have hrow2 := List.mem_filter.mp hrowmem
    rcases hl : (fetch_target_data store).lookup i with _ | tr
    · exact (fetch_target_lookup_none_iff store i).mp hl row hrow2.1 hrowid
    · have htr := fetch_target_lookup_mem store i tr hl
      have htrrow : tr = row :=
        List.inj_on_of_nodup_map hact htr.1 hrow2.1 (by rw [htr.2, hrowid])
      have htriple := changed_triple_mem src (fetch_target_data store) ts i
        tr w hl hwmem hwid
      have hum := (unmatchedB_iff _ row).mp hrow2.2
      exact hum ⟨ts, i, tr.row_start_date⟩ htriple
        ⟨by rw [hrowid], by rw [← htrrow]⟩

/-- After one run, looking up any source identifier in the refreshed
active-history map finds a row whose stored fingerprint equals the
source fingerprint. -/
theorem second_run_lookup (store : List CDCRow) (src : List SrcRow)
    (ts1 : String) (r : SrcRow)
    (hact : ((activeRows store).map CDCRow.id).Nodup)
    (hsrc : (src.map SrcRow.id).Nodup)
    (hr : r ∈ src) :
    ∃ v, (fetch_target_data (runOnce store src ts1)).lookup r.id = some v ∧
      v.row_hash = calculate_row_hash r := by
  have hnd1 := nodup_actives_runOnce store src ts1 hact hsrc
  have hfil : src.filter (fun x => x.id == r.id) = [r] :=
    filter_id_singleton src r hsrc hr
  rcases hl : (fetch_target_data store).lookup r.id with _ | h0
  · have hins : (process_records src (fetch_target_data store) ts1).1.filter
          (fun w => w.id == r.id)
        = [newVersion r (calculate_row_hash r) ts1] := by
      rw [process_records_filter_fst, hfil,
        process_records_cons_new r [] (fetch_target_data store) ts1 hl]
      rfl
    have hmem : newVersion r (calculate_row_hash r) ts1
        ∈ (process_records src (fetch_target_data store) ts1).1 := by
      have hmf : newVersion r (calculate_row_hash r) ts1
          ∈ (process_records src (fetch_target_data store) ts1).1.filter
            (fun w => w.id == r.id) := by
        rw [hins]
        exact List.mem_cons_self _ _
      exact List.mem_of_mem_filter hmf
    have hmem2 : newVersion r (calculate_row_hash r) ts1
        ∈ activeRows (runOnce store src ts1) := by
      rw [actives_runOnce]
      exact List.mem_append_right _ hmem
    exact ⟨newVersion r (calculate_row_hash r) ts1,
      fetch_target_lookup_of_mem (runOnce store src ts1) _ hnd1 hmem2, rfl⟩
  · by_cases hne : calculate_row_hash r = h0.row_hash
    · have hh0 := fetch_target_lookup_mem store r.id h0 hl
      have hexp : (process_records src (fetch_target_data store) ts1).2.filter
            (fun t => t.eid == r.id) = [] := by
        rw [process_records_filter_snd, hfil,
          process_records_cons_same r [] (fetch_target_data store) ts1 h0 hl
            hne]
        rfl
      have hum : unmatchedB
          (process_records src (fetch_target_data store) ts1).2 h0 = true := by
        rw [unmatchedB_iff]
        intro t ht hc
        have hmemf : t ∈ (process_records src (fetch_target_data store)
            ts1).2.filter (fun t => t.eid == r.id) := by
          apply List.mem_filter.mpr
          refine ⟨ht, ?_⟩
          have : t.eid = r.id := by rw [← hc.1, hh0.2]
          simp [this]
        rw [hexp] at hmemf
        cases hmemf
      have hmem2 : h0 ∈ activeRows (runOnce store src ts1) := by
        rw [actives_runOnce]
        apply List.mem_append_left
        exact List.mem_filter.mpr ⟨hh0.1, hum⟩
      have hlook := fetch_target_lookup_of_mem (runOnce store src ts1) h0
        hnd1 hmem2
      rw [hh0.2] at hlook
      exact ⟨h0, hlook, hne.symm⟩
    · have hins : (process_records src (fetch_target_data store) ts1).1.filter
          (fun w => w.id == r.id)
          = [newVersion r (calculate_row_hash r) ts1] := by
        rw [process_records_filter_fst, hfil,
          process_records_cons_changed r [] (fetch_target_data store) ts1 h0
            hl hne]
        rfl
      have hmem : newVersion r (calculate_row_hash r) ts1
          ∈ (process_records src (fetch_target_data store) ts1).1 := by
        have hmf : newVersion r (calculate_row_hash r) ts1
            ∈ (process_records src (fetch_target_data store) ts1).1.filter
              (fun w => w.id == r.id) := by
          rw [hins]
          exact List.mem_cons_self _ _
        exact List.mem_of_mem_filter hmf
      have hmem2 : newVersion r (calculate_row_hash r) ts1
          ∈ activeRows (runOnce store src ts1) := by
        rw [actives_runOnce]
        exact List.mem_append_right _ hmem
      exact ⟨newVersion r (calculate_row_hash r) ts1,
        fetch_target_lookup_of_mem (runOnce store src ts1) _ hnd1 hmem2, rfl⟩

/-- A source snapshot all of whose rows find their own fingerprint in
the map classifies to two empty output lists. -/
theorem process_records_unchanged_nil (src : List SrcRow)
    (tgt : List (Nat × CDCRow)) (ts : String)
    (h : ∀ r ∈ src, ∃ v, tgt.lookup r.id = some v ∧
      v.row_hash = calculate_row_hash r) :
    process_records src tgt ts = ([], []) := by
  induction src with
  | nil => rfl
  | cons r rest ih =>
    obtain ⟨v, hv, hh⟩ := h r (List.mem_cons_self r rest)
    rw [process_records_cons_same r rest tgt ts v hv hh.symm]
    exact ih (fun x hx => h x (List.mem_cons_of_mem r hx))

/-! ### Remaining helper lemmas -/

theorem length_filter_le_one (l : List CDCRow) (i : Nat)
    (hnd : (l.map CDCRow.id).Nodup) :
    (l.filter (fun row => row.id == i)).length ≤ 1 := by
  induction l with
  | nil => simp
  | cons x rest ih =>
    rw [List.map_cons, List.nodup_cons] at hnd
    by_cases hx : x.id = i
    · rw [List.filter_cons_of_pos (by simp [hx])]
      have hzero : rest.filter (fun row => row.id == i) = [] := by
        rw [List.filter_eq_nil_iff]
        intro y hy hyi
        apply hnd.1
        have hyi2 : y.id = i := by simpa using hyi
        rw [hx, ← hyi2]
        exact List.mem_map_of_mem CDCRow.id hy
      rw [hzero]
      exact Nat.le_refl 1
    · rw [List.filter_cons_of_neg (by simp [hx])]
      exact ih hnd.2

/-- Every close triple repeats the identifier of some source record. -/
theorem process_records_expire_src (src : List SrcRow)
    (tgt : List (Nat × CDCRow)) (ts : String) (t : Expire)
    (ht : t ∈ (process_records src tgt ts).2) :
    ∃ r, r ∈ src ∧ r.id = t.eid := by
  induction src with
  | nil => simp [process_records] at ht
  | cons r rest ih =>
    rcases hl : tgt.lookup r.id with _ | tgtRow
    · rw [process_records_cons_new r rest tgt ts hl] at ht
      obtain ⟨r', hr', he⟩ := ih ht
      exact ⟨r', List.mem_cons_of_mem _ hr', he⟩
    · by_cases hne : calculate_row_hash r = tgtRow.row_hash
      · rw [process_records_cons_same r rest tgt ts tgtRow hl hne] at ht
        obtain ⟨r', hr', he⟩ := ih ht
        exact ⟨r', List.mem_cons_of_mem _ hr', he⟩
      · rw [process_records_cons_changed r rest tgt ts tgtRow hl hne] at ht
        simp only [List.mem_cons] at ht
        rcases ht with h | h
        · exact ⟨r, List.mem_cons_self r rest, by rw [h]⟩
        · obtain ⟨r', hr', he⟩ := ih h
          exact ⟨r', List.mem_cons_of_mem _ hr', he⟩

/-- Rows of an identifier that no close triple names pass through the
UPDATE step of the run with their whole id-slice intact. -/
theorem filter_id_map_g (store : List CDCRow) (exps : List Expire) (i : Nat)
    (hno : ∀ t ∈ exps, t.eid ≠ i) :
    (store.map (gRow exps)).filter (fun row => row.id == i)
      = store.filter (fun row => row.id == i) := by
  induction store with
  | nil => rfl
  | cons row rest ih =>
    simp only [List.map_cons]
    by_cases hx : row.id = i
    · have hg : gRow exps row = row := gRow_of_unmatched exps row
        (fun t ht hc => hno t ht (hc.1.symm.trans hx))
      simp [List.filter_cons, hg, hx, ih]
    · have hgid : (gRow exps row).id = row.id := (gRow_fields exps row).1
      simp [List.filter_cons, hgid, hx, ih]

/-- A snapshot of all-new identifiers yields one insert per row and an
empty close-list. -/
theorem process_records_all_new (src : List SrcRow)
    (tgt : List (Nat × CDCRow)) (ts : String)
    (h : ∀ r ∈ src, tgt.lookup r.id = none) :
    (process_records src tgt ts).1.length = src.length ∧
    (process_records src tgt ts).2 = [] := by
  induction src with
  | nil => exact ⟨rfl, rfl⟩
  | cons r rest ih =>
    rw [process_records_cons_new r rest tgt ts (h r (List.mem_cons_self r rest))]
    have ih2 := ih (fun x hx => h x (List.mem_cons_of_mem r hx))
    exact ⟨by simp [ih2.1], ih2.2⟩

theorem hash8Hex_length (st : Hash8) : (hash8Hex st).length = 64 := rfl

theorem calculate_row_hash_length (r : SrcRow) :
    (calculate_row_hash r).length = 64 :=
  hash8Hex_length (sha256Words (strBytes (String.intercalate "|" r.attrs)))

/-! ### The claims -/

/-- C1.  Change property: for a source record whose identifier is in the
active-history map with a differing stored fingerprint, `process_records`
emits exactly one close triple `(as_of, id, h.row_start_date)` and exactly
one new version (source fields, new fingerprint, `valid_from = as_of`,
`valid_to = MAX_DATE`, `is_current = 1`); and the expiry UPDATE of
`apply_changes` closes a row precisely when both the identifier and the
original start date match, setting only `row_end_date` and `is_current`
on it and leaving every other row untouched. -/
theorem scd2_change_property (src : List SrcRow) (tgt : List (Nat × CDCRow))
    (ts : String) (r : SrcRow) (hrow : CDCRow)
    (hsrc : (src.map SrcRow.id).Nodup) (hr : r ∈ src)
    (hl : tgt.lookup r.id = some hrow)
    (hne : calculate_row_hash r ≠ hrow.row_hash) :
    (process_records src tgt ts).2.filter (fun t => t.eid == r.id)
      = [⟨ts, r.id, hrow.row_start_date⟩] ∧
    (process_records src tgt ts).1.filter (fun w => w.id == r.id)
      = [⟨r.id, r.attrs, calculate_row_hash r, ts, MAX_DATE, 1⟩] ∧
    (∀ row : CDCRow, row.id = r.id → row.row_start_date = hrow.row_start_date →
      applyTriple ⟨ts, r.id, hrow.row_start_date⟩ row
        = ⟨row.id, row.attrs, row.row_hash, row.row_start_date, ts, 0⟩) ∧
    (∀ row : CDCRow,
      ¬(row.id = r.id ∧ row.row_start_date = hrow.row_start_date) →
      applyTriple ⟨ts, r.id, hrow.row_start_date⟩ row = row) := by
  have hfil := filter_id_singleton src r hsrc hr
  refine ⟨?_, ?_, ?_, ?_⟩
  · rw [process_records_filter_snd, hfil,
      process_records_cons_changed r [] tgt ts hrow hl hne]
    rfl
  · rw [process_records_filter_fst, hfil,
      process_records_cons_changed r [] tgt ts hrow hl hne]
    rfl
  · intro row h1 h2
    unfold applyTriple
    rw [if_pos ⟨h1, h2⟩]
  · intro row hcon
    unfold applyTriple
    rw [if_neg hcon]

/-- C2.  New-record property: for a source record whose identifier is
absent from the active-history map, `process_records` emits exactly one
new record (source fields, fingerprint, `valid_from = as_of`,
`valid_to = MAX_DATE`, `is_current = 1`) and no close triple for it. -/
theorem scd2_new_record_property (src : List SrcRow)
    (tgt : List (Nat × CDCRow)) (ts : String) (r : SrcRow)
    (hsrc : (src.map SrcRow.id).Nodup) (hr : r ∈ src)
    (hl : tgt.lookup r.id = none) :
    (process_records src tgt ts).1.filter (fun w => w.id == r.id)
      = [⟨r.id, r.attrs, calculate_row_hash r, ts, MAX_DATE, 1⟩] ∧
    (process_records src tgt ts).2.filter (fun t => t.eid == r.id) = [] := by
  have hfil := filter_id_singleton src r hsrc hr
  constructor
  · rw [process_records_filter_fst, hfil,
      process_records_cons_new r [] tgt ts hl]
    rfl
  · rw [process_records_filter_snd, hfil,
      process_records_cons_new r [] tgt ts hl]
    rfl

/-- C3.  Unchanged property: for a source record whose identifier is in
the active-history map with an equal stored fingerprint,
`process_records` emits nothing for that identifier: neither list
references it. -/
theorem scd2_unchanged_property (src : List SrcRow)
    (tgt : List (Nat × CDCRow)) (ts : String) (r : SrcRow) (hrow : CDCRow)
    (hsrc : (src.map SrcRow.id).Nodup) (hr : r ∈ src)
    (hl : tgt.lookup r.id = some hrow)
    (heq : calculate_row_hash r = hrow.row_hash) :
    (process_records src tgt ts).1.filter (fun w => w.id == r.id) = [] ∧
    (process_records src tgt ts).2.filter (fun t => t.eid == r.id) = [] := by
  have hfil := filter_id_singleton src r hsrc hr
  constructor
  · rw [process_records_filter_fst, hfil,
      process_records_cons_same r [] tgt ts hrow hl heq]
    rfl
  · rw [process_records_filter_snd, hfil,
      process_records_cons_same r [] tgt ts hrow hl heq]
    rfl

/-- C4.  Single-active invariant: applying one run's outputs (close-list
then insert-list) to a store with at most one active version per
identifier, from a source snapshot with distinct identifiers, leaves
every identifier with exactly 0 or 1 active rows. -/
theorem scd2_single_active_invariant (store : List CDCRow)
    (src : List SrcRow) (ts : String) (i : Nat)
    (hact : ((activeRows store).map CDCRow.id).Nodup)
    (hsrc : (src.map SrcRow.id).Nodup) :
    ((runOnce store src ts).filter
        (fun row => row.id == i && row.is_current == 1)).length = 0 ∨
    ((runOnce store src ts).filter
        (fun row => row.id == i && row.is_current == 1)).length = 1 := by
  have hnd1 := nodup_actives_runOnce store src ts hact hsrc
  have heq : (runOnce store src ts).filter
        (fun row => row.id == i && row.is_current == 1)
      = (activeRows (runOnce store src ts)).filter
          (fun row => row.id == i) := by
    simp [activeRows, List.filter_filter]
  rw [heq]
  exact Nat.le_one_iff_eq_zero_or_eq_one.mp
    (length_filter_le_one _ i hnd1)

/-- C5.  Idempotence: re-running the classifier on an unchanged source
snapshot against the map obtained after applying the first run's outputs
produces two empty lists, so a second apply leaves the store content of
the first run unchanged. -/
theorem scd2_idempotence (store : List CDCRow) (src : List SrcRow)
    (ts1 ts2 : String)
    (hact : ((activeRows store).map CDCRow.id).Nodup)
    (hsrc : (src.map SrcRow.id).Nodup) :
    process_records src (fetch_target_data (runOnce store src ts1)) ts2
      = ([], []) ∧
    runOnce (runOnce store src ts1) src ts2 = runOnce store src ts1 := by
  have h1 : process_records src
      (fetch_target_data (runOnce store src ts1)) ts2 = ([], []) :=
    process_records_unchanged_nil src _ ts2
      (fun r hr => second_run_lookup store src ts1 r hact hsrc hr)
  refine ⟨h1, ?_⟩
  have h2 : runOnce (runOnce store src ts1) src ts2
      = apply_changes (runOnce store src ts1)
          (process_records src
            (fetch_target_data (runOnce store src ts1)) ts2).2
          (process_records src
            (fetch_target_data (runOnce store src ts1)) ts2).1 := rfl
  rw [h2, h1]
  simp [apply_changes, apply_expires]

/-- C6.  The fingerprint is computed over all fields except the
identifier: `calculate_row_hash` (a pure, hence deterministic, function)
returns equal digests for rows agreeing on every field after index 0,
whatever their identifiers, because its value is exactly the SHA-256
digest of the joined non-identifier fields. -/
theorem scd2_fingerprint_excludes_id (id1 id2 : Nat) (attrs : List String) :
    calculate_row_hash ⟨id1, attrs⟩ = calculate_row_hash ⟨id2, attrs⟩ ∧
    calculate_row_hash ⟨id1, attrs⟩
      = sha256Hex (String.intercalate "|" attrs) :=
  ⟨rfl, rfl⟩

/-- C7.  Frame property: an identifier absent from the source snapshot is
referenced by neither output list, and the whole slice of the store
carrying that identifier — in particular its active, open-ended row — is
exactly what it was before the run. -/
theorem scd2_missing_from_source_untouched (store : List CDCRow)
    (src : List SrcRow) (ts : String) (i : Nat)
    (habs : i ∉ src.map SrcRow.id) :
    (process_records src (fetch_target_data store) ts).1.filter
      (fun w => w.id == i) = [] ∧
    (process_records src (fetch_target_data store) ts).2.filter
      (fun t => t.eid == i) = [] ∧
    (runOnce store src ts).filter (fun row => row.id == i)
      = store.filter (fun row => row.id == i) := by
  have hfil : src.filter (fun x => x.id == i) = [] := by
    rw [List.filter_eq_nil_iff]
    intro r hr hri
    apply habs
    have hri2 : r.id = i := by simpa using hri
    rw [← hri2]
    exact List.mem_map_of_mem SrcRow.id hr
  have h1 : (process_records src (fetch_target_data store) ts).1.filter
      (fun w => w.id == i) = [] := by
    rw [process_records_filter_fst, hfil]
    rfl
  have h2 : (process_records src (fetch_target_data store) ts).2.filter
      (fun t => t.eid == i) = [] := by
    rw [process_records_filter_snd, hfil]
    rfl
  refine ⟨h1, h2, ?_⟩
  have h0 : runOnce store src ts
      = apply_expires store
          (process_records src (fetch_target_data store) ts).2
        ++ (process_records src (fetch_target_data store) ts).1 := rfl
  rw [h0, apply_expires_eq_map, List.filter_append]
  have hno : ∀ t ∈ (process_records src (fetch_target_data store) ts).2,
      t.eid ≠ i := by
    intro t ht htei
    obtain ⟨r, hr, hre⟩ := process_records_expire_src src _ ts t ht
    apply habs
    rw [← htei, ← hre]
    exact List.mem_map_of_mem SrcRow.id hr
  rw [filter_id_map_g store _ i hno, h1, List.append_nil]

/-- C8.  Atomicity of `apply_changes`: a `sqlite3.Error` raised during
the close step or during the insert step reaches the `except` branch,
which rolls the transaction back — the committed store is exactly as
before — and returns `False`; without a fault both steps are committed
together and it returns `True`. -/
theorem scd2_apply_changes_atomic (store : List CDCRow)
    (exps : List Expire) (ins : List CDCRow) (e : DbFault) :
    apply_changes_db (some e) store exps ins = (store, false) ∧
    apply_changes_db none store exps ins
      = (apply_changes store exps ins, true) := by
  constructor
  · cases e <;> rfl
  · rfl

/-- C9.  `scd_type2_process` never lets any failure reach its caller: a
missing database file is only logged (the caller sees a normal `None`
return and an untouched store), and an apply failure is likewise only
logged — contrary to the function's own docstring, which documents
`Raises: sqlite3.Error`. -/
theorem scd2_errors_not_surfaced (dbExists : Bool) (fault : Option DbFault)
    (store : List CDCRow) (src : List SrcRow) (ts : String) :
    (scd_type2_process dbExists fault store src ts).raised = false ∧
    scd_type2_process false fault store src ts = ⟨store, false⟩ := by
  constructor
  · cases dbExists <;> rfl
  · rfl

/-- C10.  Duplicate source identifiers: for an identifier absent from the
active-history map, `process_records` emits one insert per source
occurrence of the identifier, each with `is_current = 1`, so duplicated
source identifiers put several active versions for one identifier into
the insert-list. -/
theorem scd2_duplicate_ids_insert_per_occurrence (src : List SrcRow)
    (tgt : List (Nat × CDCRow)) (ts : String) (i : Nat)
    (hl : tgt.lookup i = none) :
    ((process_records src tgt ts).1.filter (fun w => w.id == i)).length
      = (src.filter (fun r => r.id == i)).length ∧
    ∀ w ∈ (process_records src tgt ts).1, w.is_current = 1 := by
  constructor
  · rw [process_records_filter_fst]
    have hall : ∀ r ∈ src.filter (fun r => r.id == i),
        tgt.lookup r.id = none := by
      intro r hrf
      have h2 := (List.mem_filter.mp hrf).2
      have h3 : r.id = i := by simpa using h2
      rw [h3]
      exact hl
    exact (process_records_all_new _ tgt ts hall).1
  · exact fun w hw => process_records_insert_active src tgt ts w hw

/-! ### Concrete witnesses -/

/-- C1 at a concrete changed record. -/
theorem scd2_change_property_witness :
    (process_records [⟨1, ["a"]⟩]
        [(1, ⟨1, ["b"], "", "2024-01-01", MAX_DATE, 1⟩)] "t1").2.filter
        (fun t => t.eid == 1)
      = [⟨"t1", 1, "2024-01-01"⟩] ∧
    (process_records [⟨1, ["a"]⟩]
        [(1, ⟨1, ["b"], "", "2024-01-01", MAX_DATE, 1⟩)] "t1").1.filter
        (fun w => w.id == 1)
      = [⟨1, ["a"], calculate_row_hash ⟨1, ["a"]⟩, "t1", MAX_DATE, 1⟩] ∧
    (∀ row : CDCRow, row.id = 1 → row.row_start_date = "2024-01-01" →
      applyTriple ⟨"t1", 1, "2024-01-01"⟩ row
        = ⟨row.id, row.attrs, row.row_hash, row.row_start_date, "t1", 0⟩) ∧
    (∀ row : CDCRow, ¬(row.id = 1 ∧ row.row_start_date = "2024-01-01") →
      applyTriple ⟨"t1", 1, "2024-01-01"⟩ row = row) :=
  scd2_change_property [⟨1, ["a"]⟩]
    [(1, ⟨1, ["b"], "", "2024-01-01", MAX_DATE, 1⟩)] "t1"
    ⟨1, ["a"]⟩ ⟨1, ["b"], "", "2024-01-01", MAX_DATE, 1⟩
    (by decide) (by decide) rfl
    (fun he => by
      have h1 := calculate_row_hash_length ⟨1, ["a"]⟩
      rw [he] at h1
      simp at h1)

/-- C2 at a concrete new record. -/
theorem scd2_new_record_property_witness :
    (process_records [⟨2, ["x"]⟩] [] "t1").1.filter (fun w => w.id == 2)
      = [⟨2, ["x"], calculate_row_hash ⟨2, ["x"]⟩, "t1", MAX_DATE, 1⟩] ∧
    (process_records [⟨2, ["x"]⟩] [] "t1").2.filter (fun t => t.eid == 2)
      = [] :=
  scd2_new_record_property [⟨2, ["x"]⟩] [] "t1" ⟨2, ["x"]⟩
    (by decide) (by decide) rfl

/-- C3 at a concrete unchanged record. -/
theorem scd2_unchanged_property_witness :
    (process_records [⟨3, ["c"]⟩]
        [(3, ⟨3, ["c"], calculate_row_hash ⟨3, ["c"]⟩, "2024-01-01",
            MAX_DATE, 1⟩)] "t1").1.filter (fun w => w.id == 3) = [] ∧
    (process_records [⟨3, ["c"]⟩]
        [(3, ⟨3, ["c"], calculate_row_hash ⟨3, ["c"]⟩, "2024-01-01",
            MAX_DATE, 1⟩)] "t1").2.filter (fun t => t.eid == 3) = [] :=
  scd2_unchanged_property [⟨3, ["c"]⟩]
    [(3, ⟨3, ["c"], calculate_row_hash ⟨3, ["c"]⟩, "2024-01-01",
        MAX_DATE, 1⟩)] "t1"
    ⟨3, ["c"]⟩
    ⟨3, ["c"], calculate_row_hash ⟨3, ["c"]⟩, "2024-01-01", MAX_DATE, 1⟩
    (by decide) (by decide) rfl rfl

/-- C4 at a concrete run from an empty store. -/
theorem scd2_single_active_invariant_witness :
    ((runOnce [] [⟨1, ["a"]⟩] "t1").filter
        (fun row => row.id == 1 && row.is_current == 1)).length = 0 ∨
    ((runOnce [] [⟨1, ["a"]⟩] "t1").filter
        (fun row => row.id == 1 && row.is_current == 1)).length = 1 :=
  scd2_single_active_invariant [] [⟨1, ["a"]⟩] "t1" 1
    (by decide) (by decide)

/-- C5 at a concrete store and snapshot. -/
theorem scd2_idempotence_witness :
    process_records [⟨1, ["a"]⟩]
        (fetch_target_data (runOnce [] [⟨1, ["a"]⟩] "t1")) "t2"
      = ([], []) ∧
    runOnce (runOnce [] [⟨1, ["a"]⟩] "t1") [⟨1, ["a"]⟩] "t2"
      = runOnce [] [⟨1, ["a"]⟩] "t1" :=
  scd2_idempotence [] [⟨1, ["a"]⟩] "t1" "t2" (by decide) (by decide)

/-- C7 at a concrete identifier present in history but not in source. -/
theorem scd2_missing_from_source_untouched_witness :
    (process_records [⟨1, ["a"]⟩]
        (fetch_target_data [⟨2, ["b"], "h", "2024-01-01", MAX_DATE, 1⟩])
        "t1").1.filter (fun w => w.id == 2) = [] ∧
    (process_records [⟨1, ["a"]⟩]
        (fetch_target_data [⟨2, ["b"], "h", "2024-01-01", MAX_DATE, 1⟩])
        "t1").2.filter (fun t => t.eid == 2) = [] ∧
    (runOnce [⟨2, ["b"], "h", "2024-01-01", MAX_DATE, 1⟩] [⟨1, ["a"]⟩]
        "t1").filter (fun row => row.id == 2)
      = [⟨2, ["b"], "h", "2024-01-01", MAX_DATE, 1⟩].filter
          (fun row => row.id == 2) :=
  scd2_missing_from_source_untouched
    [⟨2, ["b"], "h", "2024-01-01", MAX_DATE, 1⟩] [⟨1, ["a"]⟩] "t1" 2
    (by decide)

/-- C10 at a concrete duplicated identifier. -/
theorem scd2_duplicate_ids_insert_per_occurrence_witness :
    ((process_records [⟨1, ["a"]⟩, ⟨1, ["b"]⟩] [] "t1").1.filter
        (fun w => w.id == 1)).length
      = ([⟨1, ["a"]⟩, ⟨1, ["b"]⟩].filter
          (fun r => SrcRow.id r == 1)).length ∧
    ∀ w ∈ (process_records [⟨1, ["a"]⟩, ⟨1, ["b"]⟩] [] "t1").1,
      w.is_current = 1 :=
  scd2_duplicate_ids_insert_per_occurrence [⟨1, ["a"]⟩, ⟨1, ["b"]⟩] [] "t1" 1
    rfl
